import Mathlib

/-!
Verification of the adaptive admission-control and caching layer of
J_Stock_StreamlitV2: a shallow embedding of `src/core/api_rate_manager.py`
(`AdaptiveAPIManager`) and `src/core/multi_data_source.py`
(`MultiDataSourceManager`), with theorems settling the spec claims.

Modelling conventions:
* `datetime` timestamps and second durations are rationals (`ℚ`); the
  current time `now` is passed explicitly where the Python calls
  `datetime.now()`.
* Python dicts are insertion-ordered association lists
  (`List (String × α)`): assignment keeps an existing key in place,
  a fresh key is appended at the end, exactly as CPython dicts behave.
* Fallible dict indexing (`d[k]` raising `KeyError`) and Python
  `ZeroDivisionError` are modelled in `Except PyErr`.
* The Python float literals `1.2`, `1.1`, `0.8` that scale integer quotas
  are modelled by the exact rationals `6/5`, `11/10` and, for
  `int(n * 0.8)` on a nonnegative int, by natural floor division `n * 4 / 5`.
-/

set_option autoImplicit false

namespace JStock

variable {α : Type}

/-- Python `d.get(k)` / `k in d` on an insertion-ordered dict. -/
def dget (l : List (String × α)) (k : String) : Option α :=
  match l with
  | [] => none
  | (k₀, v₀) :: rest => if k₀ = k then some v₀ else dget rest k

/-- Python `d[k] = v`: overwrite in place if present, else append at the end. -/
def dset (l : List (String × α)) (k : String) (v : α) : List (String × α) :=
  match l with
  | [] => [(k, v)]
  | (k₀, v₀) :: rest =>
      if k₀ = k then (k, v) :: rest else (k₀, v₀) :: dset rest k v

/-- Python `del d[k]` (on a present key): drop the first entry with key `k`. -/
def ddel (l : List (String × α)) (k : String) : List (String × α) :=
  match l with
  | [] => []
  | (k₀, v₀) :: rest =>
      if k₀ = k then rest else (k₀, v₀) :: ddel rest k

/-- Python runtime errors surfaced by the modelled code. -/
inductive PyErr where
  | keyError
  | zeroDivisionError
  deriving DecidableEq, Repr

/-- Python `d[k]` as an expression: `KeyError` when the key is absent. -/
def dgetE (l : List (String × α)) (k : String) : Except PyErr α :=
  match dget l k with
  | some v => .ok v
  | none => .error .keyError

@[simp] theorem dget_nil (k : String) : dget ([] : List (String × α)) k = none := rfl

@[simp] theorem dget_cons (k₀ k : String) (v₀ : α) (rest : List (String × α)) :
    dget ((k₀, v₀) :: rest) k = if k₀ = k then some v₀ else dget rest k := rfl

@[simp] theorem dset_nil (k : String) (v : α) :
    dset ([] : List (String × α)) k v = [(k, v)] := rfl

@[simp] theorem dset_cons (k₀ k : String) (v₀ v : α) (rest : List (String × α)) :
    dset ((k₀, v₀) :: rest) k v =
      if k₀ = k then (k, v) :: rest else (k₀, v₀) :: dset rest k v := rfl

@[simp] theorem ddel_nil (k : String) : ddel ([] : List (String × α)) k = [] := rfl

@[simp] theorem ddel_cons (k₀ k : String) (v₀ : α) (rest : List (String × α)) :
    ddel ((k₀, v₀) :: rest) k = if k₀ = k then rest else (k₀, v₀) :: ddel rest k := rfl

@[simp] theorem dget_dset (l : List (String × α)) (k : String) (v : α) :
    dget (dset l k v) k = some v := by
  induction l with
  | nil => simp [dget, dset]
  | cons p rest ih =>
      obtain ⟨k₀, v₀⟩ := p
      by_cases h : k₀ = k <;> simp [dget, dset, h, ih]

theorem dget_dset_ne (l : List (String × α)) (k k₁ : String) (v : α) (hne : k₁ ≠ k) :
    dget (dset l k v) k₁ = dget l k₁ := by
  induction l with
  | nil => simp [dget, dset, Ne.symm hne]
  | cons p rest ih =>
      obtain ⟨k₀, v₀⟩ := p
      by_cases h : k₀ = k
      · subst h
        simp [dget, dset, Ne.symm hne]
      · simp only [dset, if_neg h, dget_cons]
        by_cases h₁ : k₀ = k₁ <;> simp [h₁, ih]

theorem dget_eq_none_of_not_mem (l : List (String × α)) (k : String)
    (h : k ∉ l.map Prod.fst) : dget l k = none := by
  induction l with
  | nil => rfl
  | cons p rest ih =>
      obtain ⟨k₀, v₀⟩ := p
      simp only [List.map_cons, List.mem_cons, not_or] at h
      simp [dget, Ne.symm h.1, ih h.2]

theorem dget_ddel_self (l : List (String × α)) (k : String)
    (hnd : (l.map Prod.fst).Nodup) : dget (ddel l k) k = none := by
  induction l with
  | nil => simp [ddel]
  | cons p rest ih =>
      obtain ⟨k₀, v₀⟩ := p
      simp only [List.map_cons, List.nodup_cons] at hnd
      by_cases h : k₀ = k
      · subst h
        simpa [ddel] using dget_eq_none_of_not_mem rest k₀ hnd.1
      · simp [ddel, h, dget, ih hnd.2]

theorem length_ddel_of_mem (l : List (String × α)) (k : String)
    (hmem : dget l k ≠ none) : (ddel l k).length + 1 = l.length := by
  induction l with
  | nil => simp [dget] at hmem
  | cons p rest ih =>
      obtain ⟨k₀, v₀⟩ := p
      by_cases h : k₀ = k
      · simp [ddel, h]
      · simp only [dget_cons, if_neg h] at hmem
        simp [ddel, h, ih hmem]

theorem length_dset_of_fresh (l : List (String × α)) (k : String) (v : α)
    (hfresh : dget l k = none) : (dset l k v).length = l.length + 1 := by
  induction l with
  | nil => simp [dset]
  | cons p rest ih =>
      obtain ⟨k₀, v₀⟩ := p
      simp only [dget_cons] at hfresh
      by_cases h : k₀ = k
      · simp [h] at hfresh
      · simp only [if_neg h] at hfresh
        simp [dset, h, ih hfresh]

/-! # ResultCache: `MultiDataSourceManager` cache (`src/core/multi_data_source.py`)

`self.cache` maps a symbol to `{'data': ..., 'cached_at': datetime.now()}`;
`self.cache_ttl = 900`.  The opaque `ProcessedData` payload is modelled as `ℕ`. -/

/-- The value stored under one cache key: `{'data': data, 'cached_at': now}`. -/
structure CacheEntry where
  data : ℕ
  cached_at : ℚ
  deriving DecidableEq, Repr

/-- The cache-relevant state of `MultiDataSourceManager`. -/
structure DataSourceState where
  cache : List (String × CacheEntry)
  cache_ttl : ℚ
  deriving DecidableEq, Repr

/-- `MultiDataSourceManager._get_cached_data`: returns the cached value, or
`None` on a missing key; a stale entry (`now - cached_at > ttl`) is deleted
and reported as a miss.  Returns the value (if any) and the updated state. -/
def getCachedData (st : DataSourceState) (symbol : String) (now : ℚ) :
    Option ℕ × DataSourceState :=
  match dget st.cache symbol with
  | none => (none, st)
  | some entry =>
      if now - entry.cached_at > st.cache_ttl then
        (none, { st with cache := ddel st.cache symbol })
      else
        (some entry.data, st)

/-- `min(cache.keys(), key=lambda k: cache[k]['cached_at'])` together with its
entry: Python `min` scans in iteration order and keeps the first key attaining
the minimum, so a later key displaces the current best only when strictly
smaller. -/
def oldestEntry : List (String × CacheEntry) → Option (String × CacheEntry)
  | [] => none
  | (k, e) :: rest =>
      match oldestEntry rest with
      | none => some (k, e)
      | some (k₁, e₁) =>
          if e₁.cached_at < e.cached_at then some (k₁, e₁) else some (k, e)

/-- `MultiDataSourceManager._cache_data`: store `{'data': data, 'cached_at': now}`
under `symbol`; if the cache then holds more than 100 entries, delete the key
whose `cached_at` is smallest. -/
def cacheData (st : DataSourceState) (symbol : String) (data : ℕ) (now : ℚ) :
    DataSourceState :=
  let cache := dset st.cache symbol ⟨data, now⟩
  if cache.length > 100 then
    match oldestEntry cache with
    | some (k, _) => { st with cache := ddel cache k }
    | none => { st with cache := cache }
  else
    { st with cache := cache }

/-! # AdaptiveAPIManager (`src/core/api_rate_manager.py`)

The manager's Python dicts (`api_configs`, `request_history`, `request_queues`,
`backoff_until`) become association lists; a deque of timestamps becomes a
`List ℚ` whose head is the oldest element; the dynamically named attributes
`self._{api_name}_delay` (set via `setattr`, read via `getattr` with default
`config.base_delay`) become one extra association list `delays`.
`AdaptiveAPIManager._load_settings` only copies values from an external
database into `api_configs` (and swallows every exception); the model starts
from the in-code default configuration, i.e. an empty database. -/

/-- `Priority(Enum)`: LOW=1, NORMAL=2, HIGH=3, CRITICAL=4. -/
inductive Priority where
  | LOW
  | NORMAL
  | HIGH
  | CRITICAL
  deriving DecidableEq, Repr

/-- `APILimitConfig` dataclass. -/
structure APILimitConfig where
  requests_per_hour : ℕ
  requests_per_minute : Option ℕ := none
  burst_limit : Option ℕ := none
  backoff_enabled : Bool := true
  base_delay : ℚ := 1
  max_delay : ℚ := 300
  deriving DecidableEq, Repr

/-- `APIRequest` dataclass. -/
structure APIRequest where
  api_name : String
  symbol : String
  request_type : String
  priority : Priority
  timestamp : ℚ
  retry_count : ℕ := 0
  max_retries : ℕ := 3
  deriving DecidableEq, Repr

/-- `{priority: deque() for priority in Priority}`: one FIFO per tier,
head = front of the deque. -/
structure PriorityQueues where
  low : List APIRequest
  normal : List APIRequest
  high : List APIRequest
  critical : List APIRequest
  deriving DecidableEq, Repr

def PriorityQueues.get (q : PriorityQueues) : Priority → List APIRequest
  | .LOW => q.low
  | .NORMAL => q.normal
  | .HIGH => q.high
  | .CRITICAL => q.critical

def PriorityQueues.set (q : PriorityQueues) : Priority → List APIRequest → PriorityQueues
  | .LOW, l => { q with low := l }
  | .NORMAL, l => { q with normal := l }
  | .HIGH, l => { q with high := l }
  | .CRITICAL, l => { q with critical := l }

def emptyQueues : PriorityQueues := ⟨[], [], [], []⟩

/-- The mutable state of one `AdaptiveAPIManager`. -/
structure Manager where
  api_configs : List (String × APILimitConfig)
  request_history : List (String × List ℚ)
  request_queues : List (String × PriorityQueues)
  backoff_until : List (String × ℚ)
  delays : List (String × ℚ)
  deriving DecidableEq, Repr

/-- The in-code default `self.api_configs`. -/
def defaultConfigs : List (String × APILimitConfig) :=
  [("yahoo_finance",
    { requests_per_hour := 100, requests_per_minute := some 10,
      burst_limit := some 5, backoff_enabled := true }),
   ("j_quants",
    { requests_per_hour := 500, requests_per_minute := some 30,
      burst_limit := some 10, backoff_enabled := true })]

/-- `AdaptiveAPIManager.__init__` at time `now` (empty settings database). -/
def initManager (now : ℚ) : Manager :=
  { api_configs := defaultConfigs
    request_history := defaultConfigs.map fun p => (p.1, [])
    request_queues := defaultConfigs.map fun p => (p.1, emptyQueues)
    backoff_until := defaultConfigs.map fun p => (p.1, now)
    delays := [] }

/-- The `while history and history[0] < cutoff: history.popleft()` loop of
`AdaptiveAPIManager._cleanup_history`. -/
def dropOldFront (history : List ℚ) (cutoff : ℚ) : List ℚ :=
  match history with
  | [] => []
  | t :: rest => if t < cutoff then dropOldFront rest cutoff else t :: rest

/-- `AdaptiveAPIManager._cleanup_history` with `cutoff = now - 1 hour`. -/
def cleanupHistory (m : Manager) (api : String) (now : ℚ) : Except PyErr Manager := do
  let history ← dgetE m.request_history api
  pure { m with
    request_history := dset m.request_history api (dropOldFront history (now - 3600)) }

/-- The backward scan of `AdaptiveAPIManager._count_requests_in_window`:
walk `reversed(history)`, count while `timestamp >= cutoff`, break at the
first older event. -/
def countBack (l : List ℚ) (cutoff : ℚ) : ℕ :=
  match l with
  | [] => 0
  | t :: rest => if t ≥ cutoff then countBack rest cutoff + 1 else 0

/-- `AdaptiveAPIManager._count_requests_in_window`. -/
def countRequestsInWindow (m : Manager) (api : String) (now window_seconds : ℚ) :
    Except PyErr ℕ := do
  let history ← dgetE m.request_history api
  pure (countBack history.reverse (now - window_seconds))

/-- The hour-limit check of `can_make_request` after the priority relaxation:
CRITICAL compares against `requests_per_hour * 1.2`, HIGH against
`requests_per_hour * 1.1`, the rest against `requests_per_hour`. -/
def hourLimitOk (config : APILimitConfig) (priority : Priority) (hour_count : ℕ) : Bool :=
  match priority with
  | .CRITICAL => decide ((hour_count : ℚ) < (config.requests_per_hour : ℚ) * (6 / 5))
  | .HIGH => decide ((hour_count : ℚ) < (config.requests_per_hour : ℚ) * (11 / 10))
  | _ => decide (hour_count < config.requests_per_hour)

/-- `3600.0 / config.requests_per_hour`, raising `ZeroDivisionError` on a
zero hourly quota exactly as Python float division does. -/
def hourWait (config : APILimitConfig) : Except PyErr ℚ :=
  if config.requests_per_hour = 0 then .error .zeroDivisionError
  else .ok ((3600 : ℚ) / (config.requests_per_hour : ℚ))

/-- `AdaptiveAPIManager.can_make_request`.  Returns
`((allowed, recommended wait seconds), updated manager)`; the manager changes
only through the `_cleanup_history` call.  The Python `if not minute_limit_ok
and config.requests_per_minute:` guard tests dict truthiness, so it is taken
only when `requests_per_minute` is neither `None` nor `0`. -/
def canMakeRequest (m : Manager) (api : String) (priority : Priority) (now : ℚ) :
    Except PyErr ((Bool × ℚ) × Manager) :=
  match dget m.api_configs api with
  | none => .ok ((true, 0), m)
  | some config => do
      let backoffUntil ← dgetE m.backoff_until api
      if now < backoffUntil then
        .ok ((false, backoffUntil - now), m)
      else do
        let m ← cleanupHistory m api now
        let hour_count ← countRequestsInWindow m api now 3600
        let minute_count ← countRequestsInWindow m api now 60
        let hour_limit_ok := hourLimitOk config priority hour_count
        let minute_limit_ok :=
          match config.requests_per_minute with
          | none => true
          | some rpm => decide (minute_count < rpm)
        if hour_limit_ok && minute_limit_ok then
          .ok ((true, 0), m)
        else do
          let base_wait ←
            match config.requests_per_minute with
            | some rpm =>
                if minute_limit_ok = false ∧ rpm ≠ 0 then
                  pure ((60 : ℚ) / (rpm : ℚ))
                else
                  hourWait config
            | none => hourWait config
          let wait_time :=
            match priority with
            | .HIGH => base_wait * (1 / 2)
            | .LOW => base_wait * 2
            | _ => base_wait
          .ok ((false, wait_time), m)

/-- `AdaptiveAPIManager._record_request`: `self.request_history[api_name].append(now)`;
raises `KeyError` when `api_name` has no history deque. -/
def recordRequest (m : Manager) (api : String) (now : ℚ) : Except PyErr Manager := do
  let history ← dgetE m.request_history api
  pure { m with request_history := dset m.request_history api (history ++ [now]) }

/-- `AdaptiveAPIManager.request_api_slot`: admit-and-record, or enqueue a new
`APIRequest` at the back of its priority tier. -/
def requestApiSlot (m : Manager) (api symbol request_type : String)
    (priority : Priority) (now : ℚ) : Except PyErr (Bool × Manager) := do
  let ((can_request, _), m) ← canMakeRequest m api priority now
  if can_request then do
    let m ← recordRequest m api now
    pure (true, m)
  else do
    let queues ← dgetE m.request_queues api
    let request : APIRequest :=
      { api_name := api, symbol := symbol, request_type := request_type,
        priority := priority, timestamp := now }
    let newQueues := queues.set priority (queues.get priority ++ [request])
    pure (false, { m with request_queues := dset m.request_queues api newQueues })

/-- The `while queue:` loop of `get_next_request` over one tier.  The first
component of the result distinguishes falling through to the next tier
(`none`) from returning out of the whole function (`some r`): a head older
than one hour is discarded and the scan goes on; an admissible head is
recorded and returned; an inadmissible head is pushed back to the front and
the function returns `None` immediately. -/
def drainTier (api : String) (now : ℚ) (m : Manager) (queue : List APIRequest) :
    Except PyErr (Option (Option APIRequest) × List APIRequest × Manager) :=
  match queue with
  | [] => .ok (none, [], m)
  | request :: rest =>
      if now - request.timestamp > 3600 then
        drainTier api now m rest
      else do
        let ((can_request, _), m) ← canMakeRequest m api request.priority now
        if can_request then do
          let m ← recordRequest m api now
          .ok (some (some request), rest, m)
        else
          .ok (some none, request :: rest, m)

/-- The `for priority in [CRITICAL, HIGH, NORMAL, LOW]:` loop of
`get_next_request`. -/
def drainTiers (api : String) (now : ℚ) :
    Manager → List Priority → Except PyErr (Option APIRequest × Manager)
  | m, [] => .ok (none, m)
  | m, p :: ps => do
      let queues ← dgetE m.request_queues api
      let (res, queueLeft, m₁) ← drainTier api now m (queues.get p)
      let queues₁ ← dgetE m₁.request_queues api
      let m₂ := { m₁ with
        request_queues := dset m₁.request_queues api (queues₁.set p queueLeft) }
      match res with
      | some r => .ok (r, m₂)
      | none => drainTiers api now m₂ ps

/-- `AdaptiveAPIManager.get_next_request`. -/
def getNextRequest (m : Manager) (api : String) (now : ℚ) :
    Except PyErr (Option APIRequest × Manager) :=
  match dget m.request_queues api with
  | none => .ok (none, m)
  | some _ => drainTiers api now m [.CRITICAL, .HIGH, .NORMAL, .LOW]

/-- `AdaptiveAPIManager._handle_rate_limit_exceeded`.  The exponential part
reads `getattr(self, f'_{api_name}_delay', config.base_delay)`, doubles it,
caps it at `max_delay`, stores it back and locks until `now + new_delay`.
Afterwards (backoff enabled or not) the hourly quota shrinks to
`int(requests_per_hour * 0.8)`, modelled as `⌊n * 4 / 5⌋`. -/
def handleRateLimitExceeded (m : Manager) (api : String) (now : ℚ) :
    Except PyErr Manager := do
  let config ← dgetE m.api_configs api
  let m ←
    if config.backoff_enabled then do
      let current_delay := (dget m.delays api).getD config.base_delay
      let new_delay := min (current_delay * 2) config.max_delay
      let m := { m with delays := dset m.delays api new_delay }
      pure { m with backoff_until := dset m.backoff_until api (now + new_delay) }
    else
      pure m
  let config₁ := { config with requests_per_hour := config.requests_per_hour * 4 / 5 }
  pure { m with api_configs := dset m.api_configs api config₁ }

/-- One per-api row of the dict built by `get_api_status`. -/
structure APIStatusEntry where
  requests_last_hour : ℕ
  requests_last_minute : ℕ
  hourly_limit : ℕ
  minute_limit : Option ℕ
  usage_percentage : ℚ
  backoff_remaining : ℚ
  queued_LOW : ℕ
  queued_NORMAL : ℕ
  queued_HIGH : ℕ
  queued_CRITICAL : ℕ
  total_queued : ℕ
  deriving DecidableEq, Repr

/-- `AdaptiveAPIManager.get_api_status`: iterates `api_configs` in dict order;
`usage_percentage = (hour_count / requests_per_hour) * 100` divides with no
zero guard, so a zero hourly quota raises `ZeroDivisionError`. -/
def getApiStatus (m : Manager) (now : ℚ) : Except PyErr (List (String × APIStatusEntry)) :=
  m.api_configs.mapM fun p => do
    let api := p.1
    let config := p.2
    let hour_count ← countRequestsInWindow m api now 3600
    let minute_count ← countRequestsInWindow m api now 60
    let queues ← dgetE m.request_queues api
    let backoff_until ← dgetE m.backoff_until api
    let backoff_remaining := max 0 (backoff_until - now)
    let usage ←
      if config.requests_per_hour = 0 then Except.error PyErr.zeroDivisionError
      else Except.ok ((hour_count : ℚ) / (config.requests_per_hour : ℚ) * 100)
    pure (api,
      { requests_last_hour := hour_count
        requests_last_minute := minute_count
        hourly_limit := config.requests_per_hour
        minute_limit := config.requests_per_minute
        usage_percentage := usage
        backoff_remaining := backoff_remaining
        queued_LOW := (queues.get .LOW).length
        queued_NORMAL := (queues.get .NORMAL).length
        queued_HIGH := (queues.get .HIGH).length
        queued_CRITICAL := (queues.get .CRITICAL).length
        total_queued := (queues.get .LOW).length + (queues.get .NORMAL).length +
          (queues.get .HIGH).length + (queues.get .CRITICAL).length })

/-! # `MultiDataSourceManager.get_multiple_stocks`

The batch fetch loop.  A single `get_stock_info` call is abstracted as an
oracle indexed by the number of calls made so far: it either returns
normalized data, raises `DataFetchError`, or raises `APIRateLimitError`
(the three outcomes the `except (DataFetchError, APIRateLimitError)` clause
distinguishes; the cache/admission internals of `get_stock_info` are modelled
separately above).  Every `time.sleep(d)` is logged by appending `d` to a
trace, so the claimed cooldowns are visible in the model. -/

/-- Outcome of one `get_stock_info` call as seen by `get_multiple_stocks`. -/
inductive FetchOutcome where
  | ok (v : ℕ)
  | fetchErr
  | rateLimitErr
  deriving DecidableEq, Repr

/-- Call counter plus the log of `time.sleep` durations. -/
structure BatchTrace where
  calls : ℕ
  sleeps : List ℚ
  deriving DecidableEq, Repr

/-- The `for i, symbol in enumerate(symbols):` loop body of
`get_multiple_stocks`: sleep `delay_between_requests` before every call but
the first (when positive), call `get_stock_info`, store a success under the
symbol, append a failure to `failed_symbols`, and sleep 60 seconds extra on
an `APIRateLimitError`; the loop never aborts early. -/
def batchLoop (oracle : ℕ → String → FetchOutcome) (delay_between_requests : ℚ) :
    ℕ → BatchTrace → List (String × ℕ) → List String → List String →
    List (String × ℕ) × List String × BatchTrace
  | _, tr, results, failed, [] => (results, failed, tr)
  | i, tr, results, failed, symbol :: rest =>
      let tr₁ := if 0 < i ∧ 0 < delay_between_requests
        then { tr with sleeps := tr.sleeps ++ [delay_between_requests] } else tr
      let outcome := oracle tr₁.calls symbol
      let tr₂ := { tr₁ with calls := tr₁.calls + 1 }
      match outcome with
      | .ok v =>
          batchLoop oracle delay_between_requests (i + 1) tr₂
            (dset results symbol v) failed rest
      | .fetchErr =>
          batchLoop oracle delay_between_requests (i + 1) tr₂
            results (failed ++ [symbol]) rest
      | .rateLimitErr =>
          batchLoop oracle delay_between_requests (i + 1)
            { tr₂ with sleeps := tr₂.sleeps ++ [60] }
            results (failed ++ [symbol]) rest

/-- `results.update(retry_results)`: assign every entry of the second dict
into the first, in its iteration order. -/
def dmerge (results retry_results : List (String × ℕ)) : List (String × ℕ) :=
  retry_results.foldl (fun acc p => dset acc p.1 p.2) results

/-- `MultiDataSourceManager.get_multiple_stocks`: one full pass, then — when
some symbols failed and `max_retries > 0` — a 5-second pause and a recursive
call on the failed subset with `max_retries - 1` and the inter-request delay
doubled, whose results are merged into the aggregate map. -/
def getMultipleStocks (oracle : ℕ → String → FetchOutcome) :
    ℕ → BatchTrace → List String → ℚ → List (String × ℕ) × BatchTrace
  | 0, tr, symbols, delay_between_requests =>
      let r := batchLoop oracle delay_between_requests 0 tr [] [] symbols
      (r.1, r.2.2)
  | k + 1, tr, symbols, delay_between_requests =>
      match batchLoop oracle delay_between_requests 0 tr [] [] symbols with
      | (results, [], tr₁) => (results, tr₁)
      | (results, f :: fs, tr₁) =>
          let tr₂ := { tr₁ with sleeps := tr₁.sleeps ++ [5] }
          let retry := getMultipleStocks oracle k tr₂ (f :: fs)
            (delay_between_requests * 2)
          (dmerge results retry.1, retry.2)

/-! # Generic `Except` reduction lemmas used below -/

@[simp] theorem ok_bind {ε α β : Type} (a : α) (f : α → Except ε β) :
    (Except.ok a >>= f) = f a := rfl

@[simp] theorem error_bind {ε α β : Type} (e : ε) (f : α → Except ε β) :
    ((Except.error e : Except ε α) >>= f) = Except.error e := rfl

@[simp] theorem pure_eq_ok {ε α : Type} (a : α) :
    (pure a : Except ε α) = Except.ok a := rfl

@[simp] theorem dgetE_eq_ok {α : Type} (l : List (String × α)) (k : String) (v : α)
    (h : dget l k = some v) : dgetE l k = Except.ok v := by
  simp [dgetE, h]

@[simp] theorem dgetE_eq_error {α : Type} (l : List (String × α)) (k : String)
    (h : dget l k = none) : dgetE l k = Except.error PyErr.keyError := by
  simp [dgetE, h]

/-! # Helper lemmas about `oldestEntry` and dict sizes -/

theorem dget_ne_none_of_mem {α : Type} (l : List (String × α)) (k : String) (v : α)
    (hmem : (k, v) ∈ l) : dget l k ≠ none := by
  induction l with
  | nil => simp at hmem
  | cons p rest ih =>
      obtain ⟨k₀, v₀⟩ := p
      rcases List.mem_cons.mp hmem with heq | htail
      · obtain ⟨hk, _⟩ := Prod.mk.injEq .. ▸ heq
        injection heq with hk hv
        simp [dget, hk]
      · by_cases h : k₀ = k
        · simp [dget, h]
        · simp [dget, h, ih htail]

theorem length_dset_le {α : Type} (l : List (String × α)) (k : String) (v : α) :
    (dset l k v).length ≤ l.length + 1 := by
  induction l with
  | nil => simp [dset]
  | cons p rest ih =>
      obtain ⟨k₀, v₀⟩ := p
      by_cases h : k₀ = k
      · simp [dset, h]
      · simp [dset, h]
        omega

theorem oldestEntry_spec (l : List (String × CacheEntry)) (hne : l ≠ []) :
    ∃ k e, oldestEntry l = some (k, e) ∧ (k, e) ∈ l ∧
      ∀ p ∈ l, e.cached_at ≤ p.2.cached_at := by
  induction l with
  | nil => exact absurd rfl hne
  | cons p rest ih =>
      obtain ⟨k₀, e₀⟩ := p
      cases hr : rest with
      | nil =>
          refine ⟨k₀, e₀, ?_, by simp, ?_⟩
          · simp [oldestEntry]
          · intro q hq
            simp [hr] at hq
            simp [hq]
      | cons q₁ tail =>
          obtain ⟨k₁, e₁, hfind, hmem, hmin⟩ := ih (by simp [hr])
          rw [← hr] at *
          by_cases hlt : e₁.cached_at < e₀.cached_at
          · refine ⟨k₁, e₁, ?_, List.mem_cons_of_mem _ hmem, ?_⟩
            · simp [oldestEntry, hfind, hlt]
            · intro q hq
              rcases List.mem_cons.mp hq with heq | htail
              · subst heq
                exact le_of_lt hlt
              · exact hmin q htail
          · refine ⟨k₀, e₀, ?_, List.mem_cons_self .., ?_⟩
            · simp [oldestEntry, hfind, hlt]
            · intro q hq
              rcases List.mem_cons.mp hq with heq | htail
              · subst heq
                exact le_rfl
              · exact le_trans (not_lt.mp hlt) (hmin q htail)

/-- C4: stale cache entries are never returned.  If the entry under `key`
satisfies `now - cached_at > ttl` then `_get_cached_data` reports a miss and
deletes the entry on that very call, and an immediately repeated get also
misses; conversely a hit is returned only for an entry with
`now - cached_at ≤ ttl` (and leaves the state unchanged). -/
theorem stale_cache_never_returned
    (st : DataSourceState) (symbol : String) (now : ℚ)
    (hnd : (st.cache.map Prod.fst).Nodup) :
    (∀ entry, dget st.cache symbol = some entry →
      now - entry.cached_at > st.cache_ttl →
      getCachedData st symbol now = (none, { st with cache := ddel st.cache symbol }) ∧
      getCachedData { st with cache := ddel st.cache symbol } symbol now =
        (none, { st with cache := ddel st.cache symbol })) ∧
    (∀ v st₁, getCachedData st symbol now = (some v, st₁) →
      ∃ entry, dget st.cache symbol = some entry ∧ entry.data = v ∧
        now - entry.cached_at ≤ st.cache_ttl ∧ st₁ = st) := by
  constructor
  · intro entry hget hstale
    refine ⟨by simp [getCachedData, hget, hstale], ?_⟩
    have hnone : dget (ddel st.cache symbol) symbol = none := dget_ddel_self _ _ hnd
    simp [getCachedData, hnone]
  · intro v st₁ h
    unfold getCachedData at h
    cases hget : dget st.cache symbol with
    | none => simp [hget] at h
    | some entry =>
        rw [hget] at h
        by_cases hstale : now - entry.cached_at > st.cache_ttl
        · simp [hstale] at h
        · simp only [if_neg hstale, Prod.mk.injEq, Option.some.injEq] at h
          exact ⟨entry, rfl, h.1, not_lt.mp hstale, h.2.symm⟩

/-- C4 witness: a single 42-valued entry cached at time 0 with the default
900-second TTL, queried at time 1000. -/
def staleCacheSt : DataSourceState := { cache := [("7203", ⟨42, 0⟩)], cache_ttl := 900 }

theorem stale_cache_never_returned_witness :
    getCachedData staleCacheSt "7203" 1000 =
      (none, { staleCacheSt with cache := ddel staleCacheSt.cache "7203" }) ∧
    getCachedData { staleCacheSt with cache := ddel staleCacheSt.cache "7203" } "7203" 1000 =
      (none, { staleCacheSt with cache := ddel staleCacheSt.cache "7203" }) :=
  (stale_cache_never_returned staleCacheSt "7203" 1000 (by simp [staleCacheSt])).1
    ⟨42, 0⟩ (by norm_num [staleCacheSt, dget]) (by norm_num [staleCacheSt])

/-- C5: a put of a fresh key into a cache at capacity (100 entries) leaves
exactly 100 entries, evicting exactly the one entry whose `cached_at` is
globally smallest; and in general no put ever grows the cache beyond 100. -/
theorem put_at_capacity_evicts_exactly_one_oldest
    (st : DataSourceState) (symbol : String) (data : ℕ) (now : ℚ)
    (hlen : st.cache.length = 100)
    (hfresh : dget st.cache symbol = none) :
    (∃ k entry,
      oldestEntry (dset st.cache symbol ⟨data, now⟩) = some (k, entry) ∧
      (k, entry) ∈ dset st.cache symbol ⟨data, now⟩ ∧
      (∀ p ∈ dset st.cache symbol ⟨data, now⟩, entry.cached_at ≤ p.2.cached_at) ∧
      (cacheData st symbol data now).cache = ddel (dset st.cache symbol ⟨data, now⟩) k ∧
      (cacheData st symbol data now).cache.length = 100) ∧
    (∀ (st₁ : DataSourceState) (sym₁ : String) (d₁ : ℕ) (t₁ : ℚ),
      st₁.cache.length ≤ 100 → (cacheData st₁ sym₁ d₁ t₁).cache.length ≤ 100) := by
  constructor
  · have hlen₁ : (dset st.cache symbol ⟨data, now⟩).length = 101 := by
      rw [length_dset_of_fresh _ _ _ hfresh, hlen]
    have hne : dset st.cache symbol ⟨data, now⟩ ≠ [] := by
      intro h
      rw [h] at hlen₁
      simp at hlen₁
    obtain ⟨k, e, hfind, hmem, hmin⟩ := oldestEntry_spec _ hne
    have hkey : dget (dset st.cache symbol ⟨data, now⟩) k ≠ none :=
      dget_ne_none_of_mem _ _ _ hmem
    have hcache : (cacheData st symbol data now).cache =
        ddel (dset st.cache symbol ⟨data, now⟩) k := by
      unfold cacheData
      simp only [hlen₁, hfind]
      norm_num
    refine ⟨k, e, hfind, hmem, hmin, hcache, ?_⟩
    rw [hcache]
    have := length_ddel_of_mem (dset st.cache symbol ⟨data, now⟩) k hkey
    omega
  · intro st₁ sym₁ d₁ t₁ hle
    have hd : (dset st₁.cache sym₁ ⟨d₁, t₁⟩).length ≤ 101 := by
      have := length_dset_le st₁.cache sym₁ ⟨d₁, t₁⟩
      omega
    unfold cacheData
    by_cases hbig : (dset st₁.cache sym₁ ⟨d₁, t₁⟩).length > 100
    · have hne : dset st₁.cache sym₁ ⟨d₁, t₁⟩ ≠ [] := by
        intro h
        rw [h] at hbig
        simp at hbig
      obtain ⟨k, e, hfind, hmem, _⟩ := oldestEntry_spec _ hne
      have hkey : dget (dset st₁.cache sym₁ ⟨d₁, t₁⟩) k ≠ none :=
        dget_ne_none_of_mem _ _ _ hmem
      have := length_ddel_of_mem (dset st₁.cache sym₁ ⟨d₁, t₁⟩) k hkey
      simp only [if_pos hbig, hfind]
      omega
    · simp only [if_neg hbig]
      omega

/-- C5 witness data: 100 distinct keys cached at times 0..99. -/
def bigCache : List (String × CacheEntry) :=
  (List.range 100).map fun i => (toString i, ⟨0, (i : ℚ)⟩)

theorem put_at_capacity_evicts_exactly_one_oldest_witness :
    (∃ k entry,
      oldestEntry (dset bigCache "X" ⟨7, 200⟩) = some (k, entry) ∧
      (k, entry) ∈ dset bigCache "X" ⟨7, 200⟩ ∧
      (∀ p ∈ dset bigCache "X" ⟨7, 200⟩, entry.cached_at ≤ p.2.cached_at) ∧
      (cacheData ⟨bigCache, 900⟩ "X" 7 200).cache = ddel (dset bigCache "X" ⟨7, 200⟩) k ∧
      (cacheData ⟨bigCache, 900⟩ "X" 7 200).cache.length = 100) ∧
    (∀ (st₁ : DataSourceState) (sym₁ : String) (d₁ : ℕ) (t₁ : ℚ),
      st₁.cache.length ≤ 100 → (cacheData st₁ sym₁ d₁ t₁).cache.length ≤ 100) :=
  put_at_capacity_evicts_exactly_one_oldest ⟨bigCache, 900⟩ "X" 7 200
    (by decide) (by decide)

/-! # Admission under an active lock (C1) and unknown api names (C8) -/

theorem canMakeRequest_locked (m : Manager) (api : String) (config : APILimitConfig)
    (bu now : ℚ) (priority : Priority)
    (hconfig : dget m.api_configs api = some config)
    (hbu : dget m.backoff_until api = some bu)
    (hlock : now < bu) :
    canMakeRequest m api priority now = .ok ((false, bu - now), m) := by
  simp [canMakeRequest, hconfig, dgetE_eq_ok _ _ _ hbu, hlock]

theorem canMakeRequest_unknown (m : Manager) (api : String) (priority : Priority) (now : ℚ)
    (hunknown : dget m.api_configs api = none) :
    canMakeRequest m api priority now = .ok ((true, 0), m) := by
  simp [canMakeRequest, hunknown]

/-- C1: while `now < backoff_until[api_name]` holds for a configured api,
`can_make_request` denies every priority — CRITICAL included — and reports
exactly `backoff_until - now` as the wait hint, leaving the state unchanged;
no priority relaxation is consulted before the lock check. -/
theorem active_lock_denies_every_priority
    (m : Manager) (api : String) (config : APILimitConfig) (bu now : ℚ)
    (hconfig : dget m.api_configs api = some config)
    (hbu : dget m.backoff_until api = some bu)
    (hlock : now < bu) :
    ∀ priority : Priority,
      canMakeRequest m api priority now = .ok ((false, bu - now), m) :=
  fun priority => canMakeRequest_locked m api config bu now priority hconfig hbu hlock

/-- A default manager whose `yahoo_finance` lock is set to time 50. -/
def lockedM : Manager :=
  { initManager 0 with
    backoff_until := dset (initManager 0).backoff_until "yahoo_finance" 50 }

theorem active_lock_denies_every_priority_witness :
    canMakeRequest lockedM "yahoo_finance" Priority.CRITICAL 10 =
      .ok ((false, 50 - 10), lockedM) :=
  active_lock_denies_every_priority lockedM "yahoo_finance"
    { requests_per_hour := 100, requests_per_minute := some 10, burst_limit := some 5,
      backoff_enabled := true } 50 10
    (by simp [lockedM, initManager, defaultConfigs])
    (by simp [lockedM, initManager, defaultConfigs, dset])
    (by norm_num) Priority.CRITICAL

/-- C8: an unknown api_name is treated permissively by `can_make_request`
(`(True, 0.0)` after a log line), but `request_api_slot` for the same unknown
api then crashes: the permissive branch admits the request and
`_record_request` indexes `self.request_history[api_name]`, which raises
`KeyError` because only configured api names have history deques.  The spec
(§7, `ConfigError`) says unknown api names are handled without failing hard,
so the `KeyError` is a slip in the code, exhibited here. -/
theorem unknown_api_admission_allowed_but_slot_request_raises
    (m : Manager) (api symbol request_type : String) (priority : Priority) (now : ℚ)
    (hunknown : dget m.api_configs api = none)
    (hnohist : dget m.request_history api = none) :
    canMakeRequest m api priority now = .ok ((true, 0), m) ∧
    requestApiSlot m api symbol request_type priority now = .error .keyError := by
  refine ⟨canMakeRequest_unknown m api priority now hunknown, ?_⟩
  simp [requestApiSlot, canMakeRequest_unknown m api priority now hunknown,
        recordRequest, dgetE_eq_error _ _ hnohist]

theorem unknown_api_admission_allowed_but_slot_request_raises_witness :
    canMakeRequest (initManager 0) "alpha_vantage" Priority.NORMAL 5 =
      .ok ((true, 0), initManager 0) ∧
    requestApiSlot (initManager 0) "alpha_vantage" "7203" "stock_info" Priority.NORMAL 5 =
      .error .keyError :=
  unknown_api_admission_allowed_but_slot_request_raises (initManager 0) "alpha_vantage"
    "7203" "stock_info" Priority.NORMAL 5
    (by simp [initManager, defaultConfigs])
    (by simp [initManager, defaultConfigs])

/-! # Backoff escalation on RATE_LIMITED (C3) -/

theorem handleRateLimit_step (m : Manager) (api : String) (config : APILimitConfig)
    (now : ℚ)
    (hconfig : dget m.api_configs api = some config)
    (henabled : config.backoff_enabled = true) :
    handleRateLimitExceeded m api now =
      .ok { m with
        delays := dset m.delays api
          (min ((dget m.delays api).getD config.base_delay * 2) config.max_delay)
        backoff_until := dset m.backoff_until api
          (now + min ((dget m.delays api).getD config.base_delay * 2) config.max_delay)
        api_configs := dset m.api_configs api
          { config with requests_per_hour := config.requests_per_hour * 4 / 5 } } := by
  simp [handleRateLimitExceeded, dgetE_eq_ok _ _ _ hconfig, henabled]

/-- C3 counterexample: from a fresh default manager (`yahoo_finance` has
`base_delay = 1.0`, `max_delay = 300`, backoff enabled, no per-api delay
attribute yet), the FIRST RATE_LIMITED failure locks for
`min(base_delay * 2, max_delay) = 2.0` seconds — not the claimed `1.0` —
because `_handle_rate_limit_exceeded` doubles the seed before using it. -/
theorem first_lock_duration_is_two_not_one :
    ∃ m₁ : Manager,
      handleRateLimitExceeded (initManager 0) "yahoo_finance" 0 = .ok m₁ ∧
      dget m₁.backoff_until "yahoo_finance" = some 2 ∧ (2 : ℚ) ≠ 1 := by
  rw [handleRateLimit_step (initManager 0) "yahoo_finance"
      { requests_per_hour := 100, requests_per_minute := some 10, burst_limit := some 5,
        backoff_enabled := true } 0 (by simp [initManager, defaultConfigs]) rfl]
  refine ⟨_, rfl, ?_, by norm_num⟩
  have hmin : min (2 : ℚ) 300 = 2 := min_eq_left (by norm_num)
  norm_num [initManager, defaultConfigs, hmin]

/-- C3 amended: with `base_delay = 1.0`, a large enough `max_delay` and
backoff enabled, three consecutive RATE_LIMITED failures set locks of
duration exactly 2.0, 4.0 and 8.0 seconds (each the doubling capped at
`max_delay`): the delay is doubled before the first lock is placed, so the
sequence starts at `2 * base_delay`, not at `base_delay`. -/
theorem three_rate_limited_failures_lock_durations
    (m : Manager) (api : String) (config : APILimitConfig) (t₁ t₂ t₃ : ℚ)
    (hconfig : dget m.api_configs api = some config)
    (hbase : config.base_delay = 1)
    (hmax : 8 ≤ config.max_delay)
    (henabled : config.backoff_enabled = true)
    (hfresh : dget m.delays api = none) :
    ∃ m₁ m₂ m₃ : Manager,
      handleRateLimitExceeded m api t₁ = .ok m₁ ∧
      dget m₁.backoff_until api = some (t₁ + 2) ∧
      handleRateLimitExceeded m₁ api t₂ = .ok m₂ ∧
      dget m₂.backoff_until api = some (t₂ + 4) ∧
      handleRateLimitExceeded m₂ api t₃ = .ok m₃ ∧
      dget m₃.backoff_until api = some (t₃ + 8) := by
  have hd₁ : min ((dget m.delays api).getD config.base_delay * 2) config.max_delay = 2 := by
    rw [hfresh, hbase]
    simp only [Option.getD_none]
    rw [min_eq_left (by linarith)]
    norm_num
  have h₁ := handleRateLimit_step m api config t₁ hconfig henabled
  rw [hd₁] at h₁
  set cfg₁ : APILimitConfig :=
    { config with requests_per_hour := config.requests_per_hour * 4 / 5 } with hcfg₁
  set M₁ : Manager :=
    { m with
      delays := dset m.delays api 2
      backoff_until := dset m.backoff_until api (t₁ + 2)
      api_configs := dset m.api_configs api cfg₁ } with hM₁
  have hc₁ : dget M₁.api_configs api = some cfg₁ := by simp [hM₁, dget_dset]
  have he₁ : cfg₁.backoff_enabled = true := by rw [hcfg₁]; exact henabled
  have hmd₁ : cfg₁.max_delay = config.max_delay := by rw [hcfg₁]
  have hdel₁ : dget M₁.delays api = some 2 := by simp [hM₁, dget_dset]
  have hd₂ : min ((dget M₁.delays api).getD cfg₁.base_delay * 2) cfg₁.max_delay = 4 := by
    rw [hdel₁, Option.getD_some, hmd₁]
    rw [min_eq_left (by linarith)]
    norm_num
  have h₂ := handleRateLimit_step M₁ api cfg₁ t₂ hc₁ he₁
  rw [hd₂] at h₂
  set cfg₂ : APILimitConfig :=
    { cfg₁ with requests_per_hour := cfg₁.requests_per_hour * 4 / 5 } with hcfg₂
  set M₂ : Manager :=
    { M₁ with
      delays := dset M₁.delays api 4
      backoff_until := dset M₁.backoff_until api (t₂ + 4)
      api_configs := dset M₁.api_configs api cfg₂ } with hM₂
  have hc₂ : dget M₂.api_configs api = some cfg₂ := by simp [hM₂, dget_dset]
  have he₂ : cfg₂.backoff_enabled = true := by rw [hcfg₂]; exact he₁
  have hmd₂ : cfg₂.max_delay = config.max_delay := by rw [hcfg₂]
  have hdel₂ : dget M₂.delays api = some 4 := by simp [hM₂, dget_dset]
  have hd₃ : min ((dget M₂.delays api).getD cfg₂.base_delay * 2) cfg₂.max_delay = 8 := by
    rw [hdel₂, Option.getD_some, hmd₂]
    rw [min_eq_left (by linarith)]
    norm_num
  have h₃ := handleRateLimit_step M₂ api cfg₂ t₃ hc₂ he₂
  rw [hd₃] at h₃
  have hb₁ : dget M₁.backoff_until api = some (t₁ + 2) := by simp [hM₁, dget_dset]
  have hb₂ : dget M₂.backoff_until api = some (t₂ + 4) := by simp [hM₂, dget_dset]
  refine ⟨M₁, M₂, _, h₁, hb₁, h₂, hb₂, h₃, ?_⟩
  simp [dget_dset]

theorem three_rate_limited_failures_lock_durations_witness :
    ∃ m₁ m₂ m₃ : Manager,
      handleRateLimitExceeded (initManager 0) "yahoo_finance" 0 = .ok m₁ ∧
      dget m₁.backoff_until "yahoo_finance" = some (0 + 2) ∧
      handleRateLimitExceeded m₁ "yahoo_finance" 2 = .ok m₂ ∧
      dget m₂.backoff_until "yahoo_finance" = some (2 + 4) ∧
      handleRateLimitExceeded m₂ "yahoo_finance" 6 = .ok m₃ ∧
      dget m₃.backoff_until "yahoo_finance" = some (6 + 8) :=
  three_rate_limited_failures_lock_durations (initManager 0) "yahoo_finance"
    { requests_per_hour := 100, requests_per_minute := some 10, burst_limit := some 5,
      backoff_enabled := true } 0 2 6
    (by simp [initManager, defaultConfigs]) rfl (by norm_num) rfl rfl

/-! # Quota shrinkage with no recovery path (C9) -/

/-- `record_api_response` with HTTP status 429, `k` times in a row at a fixed
clock reading, restricted to its `_handle_rate_limit_exceeded` effect (the
database log call is external). -/
def iterateRateLimited (api : String) (now : ℚ) : ℕ → Manager → Except PyErr Manager
  | 0, m => .ok m
  | k + 1, m => do
      let m₁ ← handleRateLimitExceeded m api now
      iterateRateLimited api now k m₁

theorem handleRateLimit_ok (m : Manager) (api : String) (config : APILimitConfig)
    (now : ℚ) (hconfig : dget m.api_configs api = some config) :
    ∃ m₁ : Manager,
      handleRateLimitExceeded m api now = .ok m₁ ∧
      m₁.api_configs = dset m.api_configs api
        { config with requests_per_hour := config.requests_per_hour * 4 / 5 } ∧
      m₁.request_history = m.request_history ∧
      m₁.request_queues = m.request_queues ∧
      (∀ bu, dget m.backoff_until api = some bu →
        ∃ bu₁, dget m₁.backoff_until api = some bu₁) := by
  unfold handleRateLimitExceeded
  rw [dgetE_eq_ok _ _ _ hconfig, ok_bind]
  cases hbe : config.backoff_enabled
  · exact ⟨_, rfl, rfl, rfl, rfl, fun bu hbu => ⟨bu, hbu⟩⟩
  · exact ⟨_, rfl, rfl, rfl, rfl, fun bu _ => ⟨_, dget_dset ..⟩⟩

theorem iterate_rph_to_zero (n : ℕ) :
    ∀ (m : Manager) (api : String) (config : APILimitConfig)
      (rest : List (String × APILimitConfig)) (bu now : ℚ),
      m.api_configs = (api, config) :: rest →
      config.requests_per_hour = n →
      dget m.backoff_until api = some bu →
      ∃ (k : ℕ) (m₁ : Manager) (config₁ : APILimitConfig) (bu₁ : ℚ),
        iterateRateLimited api now k m = .ok m₁ ∧
        m₁.api_configs = (api, config₁) :: rest ∧
        config₁.requests_per_hour = 0 ∧
        m₁.request_history = m.request_history ∧
        m₁.request_queues = m.request_queues ∧
        dget m₁.backoff_until api = some bu₁ := by
  induction n using Nat.strong_induction_on with
  | _ n ih =>
    intro m api config rest bu now hhead hn hbu
    by_cases hz : n = 0
    · exact ⟨0, m, config, bu, rfl, hhead, hn.trans (by rw [hz]), rfl, rfl, hbu⟩
    · have hconfig : dget m.api_configs api = some config := by
        rw [hhead]
        simp
      obtain ⟨m₁, hstep, hcfg, hhist, hq, hbup⟩ := handleRateLimit_ok m api config now hconfig
      obtain ⟨bu₁, hbu₁⟩ := hbup bu hbu
      have hhead₁ : m₁.api_configs =
          (api, { config with requests_per_hour := config.requests_per_hour * 4 / 5 }) :: rest := by
        rw [hcfg, hhead]
        simp [dset]
      have hlt : config.requests_per_hour * 4 / 5 < n := by omega
      obtain ⟨k, m₂, config₂, bu₂, hiter, hh₂, hr₂, hhist₂, hq₂, hbu₂⟩ :=
        ih _ hlt m₁ api _ rest bu₁ now hhead₁ rfl hbu₁
      refine ⟨k + 1, m₂, config₂, bu₂, ?_, hh₂, hr₂, hhist₂.trans hhist,
        hq₂.trans hq, hbu₂⟩
      simp [iterateRateLimited, hstep, hiter]

theorem getApiStatus_zero_quota_raises (m : Manager) (api : String)
    (config : APILimitConfig) (rest : List (String × APILimitConfig))
    (h : List ℚ) (qs : PriorityQueues) (bu now : ℚ)
    (hhead : m.api_configs = (api, config) :: rest)
    (hz : config.requests_per_hour = 0)
    (hhist : dget m.request_history api = some h)
    (hq : dget m.request_queues api = some qs)
    (hbu : dget m.backoff_until api = some bu) :
    getApiStatus m now = .error .zeroDivisionError := by
  unfold getApiStatus
  rw [hhead, List.mapM_cons]
  simp [countRequestsInWindow, dgetE_eq_ok _ _ _ hhist, dgetE_eq_ok _ _ _ hq,
        dgetE_eq_ok _ _ _ hbu, hz]

/-- C9: `_handle_rate_limit_exceeded` shrinks `requests_per_hour` to
`int(requests_per_hour * 0.8)` with no lower bound and no recovery path, so
for every api a finite number of RATE_LIMITED responses drives the hourly
quota to 0; `get_api_status` then evaluates
`hour_count / requests_per_hour` with no zero guard, and that
division-by-zero is actually reachable from the default manager
(17 consecutive 429 responses for yahoo_finance). -/
theorem quota_shrinks_to_zero_and_status_division_reachable :
    (∀ (m : Manager) (api : String) (config : APILimitConfig)
       (rest : List (String × APILimitConfig)) (bu now : ℚ),
       m.api_configs = (api, config) :: rest →
       dget m.backoff_until api = some bu →
       ∃ (k : ℕ) (m₁ : Manager) (config₁ : APILimitConfig),
         iterateRateLimited api now k m = .ok m₁ ∧
         m₁.api_configs = (api, config₁) :: rest ∧
         config₁.requests_per_hour = 0) ∧
    (∃ (k : ℕ) (m₁ : Manager),
       iterateRateLimited "yahoo_finance" 1 k (initManager 0) = .ok m₁ ∧
       getApiStatus m₁ 1 = .error .zeroDivisionError) := by
  constructor
  · intro m api config rest bu now hhead hbu
    obtain ⟨k, m₁, config₁, bu₁, hiter, hh, hr, _, _, _⟩ :=
      iterate_rph_to_zero config.requests_per_hour m api config rest bu now hhead rfl hbu
    exact ⟨k, m₁, config₁, hiter, hh, hr⟩
  · obtain ⟨k, m₁, config₁, bu₁, hiter, hh, hr, hhist, hq, hbu₁⟩ :=
      iterate_rph_to_zero 100 (initManager 0) "yahoo_finance"
        { requests_per_hour := 100, requests_per_minute := some 10, burst_limit := some 5,
          backoff_enabled := true }
        [("j_quants",
          { requests_per_hour := 500, requests_per_minute := some 30, burst_limit := some 10,
            backoff_enabled := true })]
        0 1 (by simp [initManager, defaultConfigs]) rfl
        (by simp [initManager, defaultConfigs])
    refine ⟨k, m₁, hiter, ?_⟩
    refine getApiStatus_zero_quota_raises m₁ "yahoo_finance" config₁ _ [] emptyQueues bu₁ 1
      hh hr ?_ ?_ hbu₁
    · rw [hhist]
      simp [initManager, defaultConfigs]
    · rw [hq]
      simp [initManager, defaultConfigs]

theorem quota_shrinks_to_zero_and_status_division_reachable_witness :
    ∃ (k : ℕ) (m₁ : Manager) (config₁ : APILimitConfig),
      iterateRateLimited "yahoo_finance" 3 k (initManager 0) = .ok m₁ ∧
      m₁.api_configs = ("yahoo_finance", config₁) ::
        [("j_quants",
          { requests_per_hour := 500, requests_per_minute := some 30, burst_limit := some 10,
            backoff_enabled := true })] ∧
      config₁.requests_per_hour = 0 :=
  quota_shrinks_to_zero_and_status_division_reachable.1 (initManager 0) "yahoo_finance"
    { requests_per_hour := 100, requests_per_minute := some 10, burst_limit := some 5,
      backoff_enabled := true }
    [("j_quants",
      { requests_per_hour := 500, requests_per_minute := some 30, burst_limit := some 10,
        backoff_enabled := true })]
    0 3 (by simp [initManager, defaultConfigs]) (by simp [initManager, defaultConfigs])

/-! # The sliding window count (C6) and the sortedness invariant behind it (C10) -/

theorem countBack_eq_filter_length (l : List ℚ) (cutoff : ℚ)
    (hs : l.Pairwise (· ≥ ·)) :
    countBack l cutoff = (l.filter fun t => decide (cutoff ≤ t)).length := by
  induction l with
  | nil => rfl
  | cons t rest ih =>
      rw [List.pairwise_cons] at hs
      by_cases h : t ≥ cutoff
      · have hd : (decide (cutoff ≤ t)) = true := by simpa using h
        simp only [countBack, if_pos h, List.filter_cons, hd, if_pos, List.length_cons]
        rw [ih hs.2]
      · have hall : (rest.filter fun t => decide (cutoff ≤ t)) = [] := by
          rw [List.filter_eq_nil_iff]
          intro x hx
          have hxt : x ≤ t := hs.1 x hx
          simp only [decide_eq_true_eq]
          intro hcx
          exact h (le_trans hcx hxt)
        have hd : (decide (cutoff ≤ t)) = false := by simpa using h
        simp [countBack, if_neg h, List.filter_cons, hd, hall]

theorem countRequestsInWindow_exact (m : Manager) (api : String) (history : List ℚ)
    (now w : ℚ) (hhist : dget m.request_history api = some history)
    (hsort : history.Pairwise (· ≤ ·)) :
    countRequestsInWindow m api now w =
      .ok (history.filter fun t => decide (now - w ≤ t)).length := by
  unfold countRequestsInWindow
  rw [dgetE_eq_ok _ _ _ hhist, ok_bind, pure_eq_ok]
  have hrev : history.reverse.Pairwise (· ≥ ·) := by
    rw [List.pairwise_reverse]
    exact hsort
  rw [countBack_eq_filter_length _ _ hrev, List.filter_reverse, List.length_reverse]

/-- C6: on a history laid down by `_record_request` (timestamps in
non-decreasing order, all at or before `now`), `_count_requests_in_window`
returns exactly the number of recorded timestamps inside the trailing
`w`-second window ending at `now` — the early-exit backward scan misses
nothing and counts nothing extra. -/
theorem count_within_window_exact (m : Manager) (api : String) (history : List ℚ)
    (now w : ℚ) (hhist : dget m.request_history api = some history)
    (hsort : history.Pairwise (· ≤ ·)) (hle : ∀ t ∈ history, t ≤ now) :
    countRequestsInWindow m api now w =
      .ok (history.filter fun t => decide (now - w ≤ t ∧ t ≤ now)).length := by
  rw [countRequestsInWindow_exact m api history now w hhist hsort]
  have : (history.filter fun t => decide (now - w ≤ t)) =
      (history.filter fun t => decide (now - w ≤ t ∧ t ≤ now)) :=
    List.filter_congr fun t ht => by simp [hle t ht]
  rw [this]

/-- A default manager whose yahoo_finance history holds events at 0 and 50. -/
def histM : Manager :=
  { initManager 0 with
    request_history := dset (initManager 0).request_history "yahoo_finance" [0, 50] }

theorem count_within_window_exact_witness :
    countRequestsInWindow histM "yahoo_finance" 100 60 =
      .ok (([0, 50] : List ℚ).filter fun t => decide (100 - 60 ≤ t ∧ t ≤ 100)).length :=
  count_within_window_exact histM "yahoo_finance" [0, 50] 100 60
    (by simp [histM, initManager, defaultConfigs, dset])
    (by norm_num [List.pairwise_cons])
    (by intro t ht; fin_cases ht <;> norm_num)

theorem dropOldFront_suffix (l : List ℚ) (cutoff : ℚ) :
    (dropOldFront l cutoff).IsSuffix l := by
  induction l with
  | nil => exact List.suffix_refl []
  | cons t rest ih =>
      by_cases h : t < cutoff
      · simp only [dropOldFront, if_pos h]
        exact ih.trans (List.suffix_cons t rest)
      · simp only [dropOldFront, if_neg h]
        exact List.suffix_refl (t :: rest)

/-- C10: the per-api timestamp log stays sorted (non-decreasing):
`_record_request` appends the current time at the back (sorted again provided
the clock readings are non-decreasing), `_cleanup_history` only removes a
prefix from the front (the remainder is a suffix, still sorted), and on a
sorted log the early-exit backward scan of `_count_requests_in_window`
counts all and only the in-window events. -/
theorem record_prune_keep_history_sorted
    (history : List ℚ) (now cutoff : ℚ)
    (hsort : history.Pairwise (· ≤ ·)) (hle : ∀ t ∈ history, t ≤ now) :
    (∀ (m : Manager) (api : String), dget m.request_history api = some history →
      recordRequest m api now =
        .ok { m with request_history := dset m.request_history api (history ++ [now]) }) ∧
    (history ++ [now]).Pairwise (· ≤ ·) ∧
    (dropOldFront history cutoff).IsSuffix history ∧
    (dropOldFront history cutoff).Pairwise (· ≤ ·) ∧
    (∀ (m : Manager) (api : String) (w : ℚ),
      dget m.request_history api = some history →
      countRequestsInWindow m api now w =
        .ok (history.filter fun t => decide (now - w ≤ t)).length) := by
  refine ⟨?_, ?_, dropOldFront_suffix history cutoff, ?_, ?_⟩
  · intro m api hh
    simp [recordRequest, dgetE_eq_ok _ _ _ hh]
  · rw [List.pairwise_append]
    refine ⟨hsort, List.pairwise_singleton _ _, ?_⟩
    intro a ha b hb
    simp only [List.mem_singleton] at hb
    subst hb
    exact hle a ha
  · exact List.Pairwise.sublist (dropOldFront_suffix history cutoff).sublist hsort
  · intro m api w hh
    exact countRequestsInWindow_exact m api history now w hh hsort

theorem record_prune_keep_history_sorted_witness :
    recordRequest histM "yahoo_finance" 100 =
      .ok { histM with
        request_history := dset histM.request_history "yahoo_finance" ([0, 50] ++ [100]) } ∧
    (([0, 50] : List ℚ) ++ [100]).Pairwise (· ≤ ·) ∧
    (dropOldFront [0, 50] 40).IsSuffix [0, 50] ∧
    (dropOldFront [0, 50] 40).Pairwise (· ≤ ·) ∧
    countRequestsInWindow histM "yahoo_finance" 100 3600 =
      .ok (([0, 50] : List ℚ).filter fun t => decide (100 - 3600 ≤ t)).length := by
  have h := record_prune_keep_history_sorted [0, 50] 100 40
    (by norm_num [List.pairwise_cons])
    (by intro t ht; fin_cases ht <;> norm_num)
  have hh : dget histM.request_history "yahoo_finance" = some [0, 50] := by
    simp [histM, initManager, defaultConfigs, dset]
  exact ⟨h.1 histM "yahoo_finance" hh, h.2.1, h.2.2.1, h.2.2.2.1,
    h.2.2.2.2 histM "yahoo_finance" 3600 hh⟩


/-! # Queue draining: strict tier order with head-of-line blocking (C2) -/

theorem dset_dget_self {α : Type} (l : List (String × α)) (k : String) (v : α)
    (h : dget l k = some v) : dset l k v = l := by
  induction l with
  | nil => simp [dget] at h
  | cons p rest ih =>
      obtain ⟨k₀, v₀⟩ := p
      by_cases hk : k₀ = k
      · subst hk
        simp at h
        subst h
        simp [dset]
      · simp only [dget_cons, if_neg hk] at h
        simp [dset, hk, ih h]

theorem dset_dset {α : Type} (l : List (String × α)) (k : String) (v w : α) :
    dset (dset l k v) k w = dset l k w := by
  induction l with
  | nil => simp [dset]
  | cons p rest ih =>
      obtain ⟨k₀, v₀⟩ := p
      by_cases hk : k₀ = k
      · simp [dset, hk]
      · simp [dset, hk, ih]

theorem PriorityQueues.set_self (qs : PriorityQueues) (p : Priority) :
    qs.set p (qs.get p) = qs := by
  cases qs
  cases p <;> rfl

/-- A tier whose queue is empty falls through to the next tier, leaving the
manager unchanged. -/
theorem drainTiers_cons_of_empty (api : String) (now : ℚ) (m : Manager)
    (p : Priority) (ps : List Priority) (qs : PriorityQueues)
    (hq : dget m.request_queues api = some qs)
    (hp : qs.get p = []) :
    drainTiers api now m (p :: ps) = drainTiers api now m ps := by
  simp only [drainTiers, dgetE_eq_ok _ _ _ hq, ok_bind, hp]
  simp only [drainTier, ok_bind]
  simp only [dgetE_eq_ok _ _ _ hq, ok_bind]
  have hset : qs.set p [] = qs := by rw [← hp, PriorityQueues.set_self]
  rw [hset, dset_dget_self _ _ _ hq]

/-- A fresh, admissible head of the scanned tier is popped, recorded and
returned. -/
theorem drainTiers_cons_head_admissible (api : String) (now : ℚ) (m m₁ : Manager)
    (p : Priority) (ps : List Priority) (qs : PriorityQueues)
    (req : APIRequest) (rest : List APIRequest) (w : ℚ) (h₁ : List ℚ)
    (hq : dget m.request_queues api = some qs)
    (hp : qs.get p = req :: rest)
    (hfresh : ¬ (now - req.timestamp > 3600))
    (hadm : canMakeRequest m api req.priority now = .ok ((true, w), m₁))
    (hh₁ : dget m₁.request_history api = some h₁)
    (hq₁ : m₁.request_queues = m.request_queues) :
    drainTiers api now m (p :: ps) =
      .ok (some req,
        { m₁ with request_history := dset m₁.request_history api (h₁ ++ [now]),
                  request_queues := dset m.request_queues api (qs.set p rest) }) := by
  simp only [drainTiers, dgetE_eq_ok _ _ _ hq, ok_bind, hp]
  simp only [drainTier, if_neg hfresh, hadm, ok_bind, if_pos, recordRequest,
    dgetE_eq_ok _ _ _ hh₁, ok_bind, pure_eq_ok]
  rw [hq₁, dgetE_eq_ok _ _ _ hq, ok_bind]

/-- A fresh head that is still not admissible is pushed back to the front and
the drain returns `None` immediately: lower tiers are never consulted. -/
theorem drainTiers_cons_head_blocked (api : String) (now : ℚ) (m m₁ : Manager)
    (p : Priority) (ps : List Priority) (qs : PriorityQueues)
    (req : APIRequest) (rest : List APIRequest) (w : ℚ)
    (hq : dget m.request_queues api = some qs)
    (hp : qs.get p = req :: rest)
    (hfresh : ¬ (now - req.timestamp > 3600))
    (hden : canMakeRequest m api req.priority now = .ok ((false, w), m₁))
    (hq₁ : m₁.request_queues = m.request_queues) :
    drainTiers api now m (p :: ps) = .ok (none, m₁) := by
  simp only [drainTiers, dgetE_eq_ok _ _ _ hq, ok_bind, hp]
  have hset : qs.set p (req :: rest) = qs := by rw [← hp, PriorityQueues.set_self]
  simp [drainTier, if_neg hfresh, hden, hq₁, hset, dset_dget_self _ _ _ hq,
        dgetE_eq_ok _ _ _ hq]
  rw [← hq₁]

/-- `can_make_request` on a configured api that is not locked and has an
empty request history: both window counts are 0, so admission succeeds
whenever the (priority-relaxed) hour check and the minute check pass on 0;
the only state change is the identity rewrite of the history by
`_cleanup_history`. -/
theorem canMakeRequest_ok_empty_history (m : Manager) (api : String)
    (config : APILimitConfig) (priority : Priority) (bu now : ℚ)
    (hconfig : dget m.api_configs api = some config)
    (hbu : dget m.backoff_until api = some bu)
    (hnl : ¬ now < bu)
    (hhist : dget m.request_history api = some [])
    (hhour : hourLimitOk config priority 0 = true)
    (hminute : ∀ rpm, config.requests_per_minute = some rpm → 0 < rpm) :
    canMakeRequest m api priority now =
      .ok ((true, 0), { m with request_history := dset m.request_history api [] }) := by
  simp only [canMakeRequest, hconfig, dgetE_eq_ok _ _ _ hbu, ok_bind, if_neg hnl]
  simp only [cleanupHistory, dgetE_eq_ok _ _ _ hhist, ok_bind, dropOldFront, pure_eq_ok]
  simp only [countRequestsInWindow, dgetE_eq_ok _ _ _ (dget_dset m.request_history api []),
    ok_bind, pure_eq_ok, List.reverse_nil, countBack, hhour]
  cases hrpm : config.requests_per_minute with
  | none => simp
  | some rpm =>
      have : (0 : ℕ) < rpm := hminute rpm hrpm
      simp [this]

/-- `request_api_slot` on a denied request that left the state unchanged
(as an active lock does): the request is appended at the back of its tier. -/
theorem requestApiSlot_queued (m : Manager) (api symbol request_type : String)
    (priority : Priority) (now w : ℚ) (qs : PriorityQueues) (req : APIRequest)
    (hden : canMakeRequest m api priority now = .ok ((false, w), m))
    (hq : dget m.request_queues api = some qs)
    (hreq : req = { api_name := api, symbol := symbol, request_type := request_type,
                    priority := priority, timestamp := now }) :
    requestApiSlot m api symbol request_type priority now =
      .ok (false,
        { m with request_queues := dset m.request_queues api (qs.set priority (qs.get priority ++ [req])) }) := by
  subst hreq
  simp [requestApiSlot, hden, dgetE_eq_ok _ _ _ hq]


/-- The yahoo_finance entry of the default configuration. -/
def cfgY : APILimitConfig :=
  { requests_per_hour := 100, requests_per_minute := some 10, burst_limit := some 5,
    backoff_enabled := true }

/-- LOW-priority request queued at time 10 while locked. -/
def reqL10 : APIRequest :=
  { api_name := "yahoo_finance", symbol := "7203", request_type := "stock_info",
    priority := Priority.LOW, timestamp := 10 }

/-- CRITICAL-priority request queued at time 10 while locked. -/
def reqC10 : APIRequest :=
  { api_name := "yahoo_finance", symbol := "9984", request_type := "stock_info",
    priority := Priority.CRITICAL, timestamp := 10 }

def qsA : PriorityQueues := { low := [reqL10], normal := [], high := [], critical := [] }

def qsB : PriorityQueues := { low := [reqL10], normal := [], high := [], critical := [reqC10] }

/-- `lockedM` after queueing the LOW request. -/
def mA : Manager :=
  { lockedM with request_queues := dset lockedM.request_queues "yahoo_finance" qsA }

/-- `mA` after queueing the CRITICAL request. -/
def mB : Manager :=
  { lockedM with request_queues := dset lockedM.request_queues "yahoo_finance" qsB }

/-- `mB` after the first drain past the lock: the CRITICAL record was
dequeued and recorded, the LOW record is still queued. -/
def mC : Manager :=
  { lockedM with request_history := dset lockedM.request_history "yahoo_finance" [60],
                 request_queues := dset lockedM.request_queues "yahoo_finance" qsA }

/-- C2: `get_next_request` scans tiers strictly CRITICAL → HIGH → NORMAL →
LOW.  Conjunct 1: with an empty CRITICAL tier, a fresh admissible head of the
HIGH tier is popped, recorded and returned.  Conjunct 2: a fresh but still
inadmissible head of the first non-empty tier (here CRITICAL, under an active
lock) is pushed back to the front and the call returns `None` at once —
lower tiers, whatever they hold, are never consulted.  Conjunct 3: a head
older than one hour is discarded and the scan of its tier continues.
Conjunct 4: the spec scenario — one LOW and one CRITICAL request are queued
while the api is locked until time 50; the first drain afterwards (time 60)
returns the CRITICAL record and leaves the LOW record queued. -/
theorem drain_strict_tier_order_with_head_of_line_blocking :
    (∀ (m m₁ : Manager) (api : String) (qs : PriorityQueues) (reqH : APIRequest)
       (restH : List APIRequest) (now w : ℚ) (h₁ : List ℚ),
       dget m.request_queues api = some qs →
       qs.critical = [] →
       qs.high = reqH :: restH →
       now - reqH.timestamp ≤ 3600 →
       canMakeRequest m api reqH.priority now = .ok ((true, w), m₁) →
       dget m₁.request_history api = some h₁ →
       m₁.request_queues = m.request_queues →
       getNextRequest m api now =
         .ok (some reqH,
           { m₁ with request_history := dset m₁.request_history api (h₁ ++ [now]),
                     request_queues := dset m.request_queues api (qs.set .HIGH restH) })) ∧
    (∀ (m m₁ : Manager) (api : String) (qs : PriorityQueues) (reqC : APIRequest)
       (restC : List APIRequest) (now w : ℚ),
       dget m.request_queues api = some qs →
       qs.critical = reqC :: restC →
       now - reqC.timestamp ≤ 3600 →
       canMakeRequest m api reqC.priority now = .ok ((false, w), m₁) →
       m₁.request_queues = m.request_queues →
       getNextRequest m api now = .ok (none, m₁)) ∧
    (∀ (m : Manager) (api : String) (req : APIRequest) (rest : List APIRequest) (now : ℚ),
       now - req.timestamp > 3600 →
       drainTier api now m (req :: rest) = drainTier api now m rest) ∧
    (requestApiSlot lockedM "yahoo_finance" "7203" "stock_info" Priority.LOW 10 =
       .ok (false, mA) ∧
     requestApiSlot mA "yahoo_finance" "9984" "stock_info" Priority.CRITICAL 10 =
       .ok (false, mB) ∧
     getNextRequest mB "yahoo_finance" 60 = .ok (some reqC10, mC) ∧
     dget mC.request_queues "yahoo_finance" = some qsA ∧
     qsA.critical = [] ∧ qsA.low = [reqL10]) := by
  have hcfgL : dget lockedM.api_configs "yahoo_finance" = some cfgY := by
    simp [lockedM, initManager, defaultConfigs, cfgY]
  have hbuL : dget lockedM.backoff_until "yahoo_finance" = some 50 := by
    simp [lockedM, initManager, defaultConfigs, dset]
  refine ⟨?_, ?_, ?_, ?_, ?_, ?_, ?_, rfl, rfl⟩
  · intro m m₁ api qs reqH restH now w h₁ hq hC hH hfresh hadm hh₁ hq₁
    have hC₁ : qs.get Priority.CRITICAL = [] := hC
    have hH₁ : qs.get Priority.HIGH = reqH :: restH := hH
    simp only [getNextRequest, hq]
    rw [drainTiers_cons_of_empty api now m Priority.CRITICAL
        [Priority.HIGH, Priority.NORMAL, Priority.LOW] qs hq hC₁]
    exact drainTiers_cons_head_admissible api now m m₁ Priority.HIGH
      [Priority.NORMAL, Priority.LOW] qs reqH restH w h₁ hq hH₁
      (not_lt.mpr hfresh) hadm hh₁ hq₁
  · intro m m₁ api qs reqC restC now w hq hC hfresh hden hq₁
    have hC₁ : qs.get Priority.CRITICAL = reqC :: restC := hC
    simp only [getNextRequest, hq]
    exact drainTiers_cons_head_blocked api now m m₁ Priority.CRITICAL
      [Priority.HIGH, Priority.NORMAL, Priority.LOW] qs reqC restC w hq hC₁
      (not_lt.mpr hfresh) hden hq₁
  · intro m api req rest now hstale
    simp only [drainTier, if_pos hstale]
  · have hqL : dget lockedM.request_queues "yahoo_finance" = some emptyQueues := by
      simp [lockedM, initManager, defaultConfigs]
    have hden := canMakeRequest_locked lockedM "yahoo_finance" cfgY 50 10 Priority.LOW
      hcfgL hbuL (by norm_num)
    rw [requestApiSlot_queued lockedM "yahoo_finance" "7203" "stock_info" Priority.LOW
        10 (50 - 10) emptyQueues reqL10 hden hqL rfl]
    rfl
  · have hqA : dget mA.request_queues "yahoo_finance" = some qsA := by
      simp [mA]
    have hden := canMakeRequest_locked mA "yahoo_finance" cfgY 50 10 Priority.CRITICAL
      (by simpa [mA] using hcfgL) (by simpa [mA] using hbuL) (by norm_num)
    rw [requestApiSlot_queued mA "yahoo_finance" "9984" "stock_info" Priority.CRITICAL
        10 (50 - 10) qsA reqC10 hden hqA rfl]
    simp [mA, mB, dset_dset, qsA, qsB, PriorityQueues.set, PriorityQueues.get]
  · have hqB : dget mB.request_queues "yahoo_finance" = some qsB := by
      simp [mB]
    have hhB : dget mB.request_history "yahoo_finance" = some [] := by
      simp [mB, lockedM, initManager, defaultConfigs]
    have hadm := canMakeRequest_ok_empty_history mB "yahoo_finance" cfgY Priority.CRITICAL
      50 60 (by simpa [mB] using hcfgL) (by simpa [mB] using hbuL) (by norm_num) hhB
      (by norm_num [hourLimitOk, cfgY])
      (by intro rpm h; simp [cfgY] at h; omega)
    simp only [getNextRequest, hqB]
    rw [drainTiers_cons_head_admissible "yahoo_finance" 60 mB
        { mB with request_history := dset mB.request_history "yahoo_finance" [] }
        Priority.CRITICAL [Priority.HIGH, Priority.NORMAL, Priority.LOW] qsB reqC10 [] 0 []
        hqB rfl (by norm_num [reqC10]) hadm (by simp) rfl]
    simp [mB, mC, dset_dset, qsA, qsB, PriorityQueues.set]
  · simp [mC, dget_dset]

theorem drain_strict_tier_order_with_head_of_line_blocking_witness :
    getNextRequest mB "yahoo_finance" 10 = .ok (none, mB) :=
  drain_strict_tier_order_with_head_of_line_blocking.2.1 mB mB "yahoo_finance" qsB reqC10 []
    10 (50 - 10)
    (by simp [mB]) rfl (by norm_num [reqC10])
    (canMakeRequest_locked mB "yahoo_finance" cfgY 50 10 Priority.CRITICAL
      (by simp [mB, lockedM, initManager, defaultConfigs, cfgY])
      (by simp [mB, lockedM, initManager, defaultConfigs, dset])
      (by norm_num))
    rfl


/-! # Batch fetching: failure collection, cooldown and retry (C7) -/

theorem dget_dset_ne_none {α : Type} (l : List (String × α)) (k s : String) (v : α)
    (h : dget l s ≠ none) : dget (dset l k v) s ≠ none := by
  by_cases hk : s = k
  · subst hk
    simp [dget_dset]
  · rw [dget_dset_ne _ _ _ _ hk]
    exact h

theorem batchLoop_calls (oracle : ℕ → String → FetchOutcome) (delay : ℚ)
    (symbols : List String) :
    ∀ (i : ℕ) (tr : BatchTrace) (results : List (String × ℕ)) (failed : List String),
      (batchLoop oracle delay i tr results failed symbols).2.2.calls =
        tr.calls + symbols.length := by
  induction symbols with
  | nil =>
      intro i tr results failed
      simp [batchLoop]
  | cons s rest ih =>
      intro i tr results failed
      simp only [batchLoop]
      set tr₁ := (if 0 < i ∧ 0 < delay
        then { tr with sleeps := tr.sleeps ++ [delay] } else tr) with htr₁
      have hc : tr₁.calls = tr.calls := by
        rw [htr₁]
        split <;> rfl
      cases h : oracle tr₁.calls s with
      | ok v =>
          simp only [h, ih]
          simp [hc, List.length_cons]
          omega
      | fetchErr =>
          simp only [h, ih]
          simp [hc, List.length_cons]
          omega
      | rateLimitErr =>
          simp only [h, ih]
          simp [hc, List.length_cons]
          omega

theorem batchLoop_results_mono (oracle : ℕ → String → FetchOutcome) (delay : ℚ)
    (symbols : List String) :
    ∀ (i : ℕ) (tr : BatchTrace) (results : List (String × ℕ)) (failed : List String)
      (s : String), dget results s ≠ none →
      dget (batchLoop oracle delay i tr results failed symbols).1 s ≠ none := by
  induction symbols with
  | nil =>
      intro i tr results failed s h
      simpa [batchLoop] using h
  | cons sym rest ih =>
      intro i tr results failed s h
      simp only [batchLoop]
      set tr₁ := (if 0 < i ∧ 0 < delay
        then { tr with sleeps := tr.sleeps ++ [delay] } else tr) with htr₁
      cases houtcome : oracle tr₁.calls sym with
      | ok v => exact ih _ _ _ _ _ (dget_dset_ne_none _ _ _ _ h)
      | fetchErr => exact ih _ _ _ _ _ h
      | rateLimitErr => exact ih _ _ _ _ _ h

theorem batchLoop_failed_mono (oracle : ℕ → String → FetchOutcome) (delay : ℚ)
    (symbols : List String) :
    ∀ (i : ℕ) (tr : BatchTrace) (results : List (String × ℕ)) (failed : List String)
      (s : String), s ∈ failed →
      s ∈ (batchLoop oracle delay i tr results failed symbols).2.1 := by
  induction symbols with
  | nil =>
      intro i tr results failed s h
      simpa [batchLoop] using h
  | cons sym rest ih =>
      intro i tr results failed s h
      simp only [batchLoop]
      set tr₁ := (if 0 < i ∧ 0 < delay
        then { tr with sleeps := tr.sleeps ++ [delay] } else tr) with htr₁
      cases houtcome : oracle tr₁.calls sym with
      | ok v => exact ih _ _ _ _ _ h
      | fetchErr => exact ih _ _ _ _ _ (List.mem_append_left _ h)
      | rateLimitErr => exact ih _ _ _ _ _ (List.mem_append_left _ h)

theorem batchLoop_covers (oracle : ℕ → String → FetchOutcome) (delay : ℚ)
    (symbols : List String) :
    ∀ (i : ℕ) (tr : BatchTrace) (results : List (String × ℕ)) (failed : List String)
      (s : String), s ∈ symbols →
      dget (batchLoop oracle delay i tr results failed symbols).1 s ≠ none ∨
      s ∈ (batchLoop oracle delay i tr results failed symbols).2.1 := by
  induction symbols with
  | nil =>
      intro i tr results failed s h
      simp at h
  | cons sym rest ih =>
      intro i tr results failed s h
      simp only [batchLoop]
      set tr₁ := (if 0 < i ∧ 0 < delay
        then { tr with sleeps := tr.sleeps ++ [delay] } else tr) with htr₁
      rcases List.mem_cons.mp h with heq | htail
      · subst heq
        cases houtcome : oracle tr₁.calls s with
        | ok v =>
            left
            exact batchLoop_results_mono oracle delay rest _ _ _ _ _
              (by simp [dget_dset])
        | fetchErr =>
            right
            exact batchLoop_failed_mono oracle delay rest _ _ _ _ _
              (List.mem_append_right _ (by simp))
        | rateLimitErr =>
            right
            exact batchLoop_failed_mono oracle delay rest _ _ _ _ _
              (List.mem_append_right _ (by simp))
      · cases houtcome : oracle tr₁.calls sym with
        | ok v => exact ih _ _ _ _ _ htail
        | fetchErr => exact ih _ _ _ _ _ htail
        | rateLimitErr => exact ih _ _ _ _ _ htail


theorem batchLoop_results_no_junk (oracle : ℕ → String → FetchOutcome) (delay : ℚ)
    (symbols : List String) :
    ∀ (i : ℕ) (tr : BatchTrace) (results : List (String × ℕ)) (failed : List String)
      (s : String), dget (batchLoop oracle delay i tr results failed symbols).1 s ≠ none →
      dget results s ≠ none ∨ s ∈ symbols := by
  induction symbols with
  | nil =>
      intro i tr results failed s h
      left
      simpa [batchLoop] using h
  | cons sym rest ih =>
      intro i tr results failed s h
      simp only [batchLoop] at h
      set tr₁ := (if 0 < i ∧ 0 < delay
        then { tr with sleeps := tr.sleeps ++ [delay] } else tr) with htr₁
      by_cases hs : s = sym
      · right
        simp [hs]
      · cases houtcome : oracle tr₁.calls sym with
        | ok v =>
            simp only [houtcome] at h
            rcases ih _ _ _ _ _ h with hres | hmem
            · rw [dget_dset_ne _ _ _ _ hs] at hres
              exact Or.inl hres
            · exact Or.inr (List.mem_cons_of_mem _ hmem)
        | fetchErr =>
            simp only [houtcome] at h
            rcases ih _ _ _ _ _ h with hres | hmem
            · exact Or.inl hres
            · exact Or.inr (List.mem_cons_of_mem _ hmem)
        | rateLimitErr =>
            simp only [houtcome] at h
            rcases ih _ _ _ _ _ h with hres | hmem
            · exact Or.inl hres
            · exact Or.inr (List.mem_cons_of_mem _ hmem)

theorem batchLoop_failed_no_junk (oracle : ℕ → String → FetchOutcome) (delay : ℚ)
    (symbols : List String) :
    ∀ (i : ℕ) (tr : BatchTrace) (results : List (String × ℕ)) (failed : List String)
      (s : String), s ∈ (batchLoop oracle delay i tr results failed symbols).2.1 →
      s ∈ failed ∨ s ∈ symbols := by
  induction symbols with
  | nil =>
      intro i tr results failed s h
      left
      simpa [batchLoop] using h
  | cons sym rest ih =>
      intro i tr results failed s h
      simp only [batchLoop] at h
      set tr₁ := (if 0 < i ∧ 0 < delay
        then { tr with sleeps := tr.sleeps ++ [delay] } else tr) with htr₁
      by_cases hs : s = sym
      · right
        simp [hs]
      · cases houtcome : oracle tr₁.calls sym with
        | ok v =>
            simp only [houtcome] at h
            rcases ih _ _ _ _ _ h with hmem | hmem
            · exact Or.inl hmem
            · exact Or.inr (List.mem_cons_of_mem _ hmem)
        | fetchErr =>
            simp only [houtcome] at h
            rcases ih _ _ _ _ _ h with hmem | hmem
            · rcases List.mem_append.mp hmem with hmem | hmem
              · exact Or.inl hmem
              · simp at hmem
                exact absurd hmem hs
            · exact Or.inr (List.mem_cons_of_mem _ hmem)
        | rateLimitErr =>
            simp only [houtcome] at h
            rcases ih _ _ _ _ _ h with hmem | hmem
            · rcases List.mem_append.mp hmem with hmem | hmem
              · exact Or.inl hmem
              · simp at hmem
                exact absurd hmem hs
            · exact Or.inr (List.mem_cons_of_mem _ hmem)

theorem batchLoop_never_ok (oracle : ℕ → String → FetchOutcome) (delay : ℚ)
    (s : String) (hfail : ∀ (n : ℕ) (v : ℕ), oracle n s ≠ .ok v)
    (symbols : List String) :
    ∀ (i : ℕ) (tr : BatchTrace) (results : List (String × ℕ)) (failed : List String),
      dget (batchLoop oracle delay i tr results failed symbols).1 s = dget results s := by
  induction symbols with
  | nil =>
      intro i tr results failed
      simp [batchLoop]
  | cons sym rest ih =>
      intro i tr results failed
      simp only [batchLoop]
      set tr₁ := (if 0 < i ∧ 0 < delay
        then { tr with sleeps := tr.sleeps ++ [delay] } else tr) with htr₁
      cases houtcome : oracle tr₁.calls sym with
      | ok v =>
          have hs : sym ≠ s := by
            intro hcontra
            exact hfail tr₁.calls v (hcontra ▸ houtcome)
          rw [ih]
          exact dget_dset_ne _ _ _ _ (Ne.symm hs)
      | fetchErr => exact ih _ _ _ _
      | rateLimitErr => exact ih _ _ _ _

theorem dmerge_dget_of_none (b a : List (String × ℕ)) (s : String)
    (hb : dget b s = none) : dget (dmerge a b) s = dget a s := by
  induction b generalizing a with
  | nil => rfl
  | cons p rest ih =>
      obtain ⟨k, v⟩ := p
      simp only [dget_cons] at hb
      by_cases hk : k = s
      · simp [hk] at hb
      · simp only [if_neg hk] at hb
        simp only [dmerge, List.foldl_cons]
        have := ih (dset a k v) hb
        simp only [dmerge] at this
        rw [this, dget_dset_ne _ _ _ _ (fun h => hk h.symm)]

theorem dmerge_dget_ne_none (b a : List (String × ℕ)) (s : String)
    (hb : dget b s ≠ none) : dget (dmerge a b) s ≠ none := by
  induction b generalizing a with
  | nil => simp [dget] at hb
  | cons p rest ih =>
      obtain ⟨k, v⟩ := p
      by_cases hrest : dget rest s = none
      · have hk : k = s := by
          by_contra hk
          simp [dget_cons, hk, hrest] at hb
        simp only [dmerge, List.foldl_cons]
        have h2 := dmerge_dget_of_none rest (dset a k v) s hrest
        simp only [dmerge] at h2
        rw [h2, hk]
        simp [dget_dset]
      · simp only [dmerge, List.foldl_cons]
        have := ih hrest (a := dset a k v)
        simpa [dmerge] using this


theorem getMultipleStocks_no_junk (oracle : ℕ → String → FetchOutcome) :
    ∀ (k : ℕ) (tr : BatchTrace) (symbols : List String) (delay : ℚ) (s : String),
      dget (getMultipleStocks oracle k tr symbols delay).1 s ≠ none → s ∈ symbols := by
  intro k
  induction k with
  | zero =>
      intro tr symbols delay s h
      simp only [getMultipleStocks] at h
      rcases batchLoop_results_no_junk oracle delay symbols 0 tr [] [] s h with hres | hmem
      · simp [dget] at hres
      · exact hmem
  | succ n ih =>
      intro tr symbols delay s h
      simp only [getMultipleStocks] at h
      rcases hbatch : batchLoop oracle delay 0 tr [] [] symbols with ⟨results, failed, tr₁⟩
      rw [hbatch] at h
      cases failed with
      | nil =>
          simp only [] at h
          rcases batchLoop_results_no_junk oracle delay symbols 0 tr [] [] s
            (by rw [hbatch]; exact h) with hres | hmem
          · simp [dget] at hres
          · exact hmem
      | cons f fs =>
          simp only [] at h
          by_cases hres : dget results s = none
          · have hretry : dget (getMultipleStocks oracle n
                { tr₁ with sleeps := tr₁.sleeps ++ [5] } (f :: fs) (delay * 2)).1 s ≠ none := by
              intro hnone
              rw [dmerge_dget_of_none _ _ _ hnone] at h
              exact h hres
            have hmem := ih _ _ _ _ hretry
            rcases batchLoop_failed_no_junk oracle delay symbols 0 tr [] [] s
              (by rw [hbatch]; exact hmem) with hemp | hsym
            · simp at hemp
            · exact hsym
          · rcases batchLoop_results_no_junk oracle delay symbols 0 tr [] [] s
              (by rw [hbatch]; exact hres) with hres₀ | hmem
            · simp [dget] at hres₀
            · exact hmem

theorem getMultipleStocks_never_ok_absent (oracle : ℕ → String → FetchOutcome)
    (s : String) (hfail : ∀ (n : ℕ) (v : ℕ), oracle n s ≠ .ok v) :
    ∀ (k : ℕ) (tr : BatchTrace) (symbols : List String) (delay : ℚ),
      dget (getMultipleStocks oracle k tr symbols delay).1 s = none := by
  intro k
  induction k with
  | zero =>
      intro tr symbols delay
      simp only [getMultipleStocks]
      rw [batchLoop_never_ok oracle delay s hfail symbols 0 tr [] []]
      rfl
  | succ n ih =>
      intro tr symbols delay
      simp only [getMultipleStocks]
      rcases hbatch : batchLoop oracle delay 0 tr [] [] symbols with ⟨results, failed, tr₁⟩
      have hres : dget results s = none := by
        have h := batchLoop_never_ok oracle delay s hfail symbols 0 tr [] []
        rw [hbatch] at h
        simpa [dget] using h
      cases failed with
      | nil => simpa using hres
      | cons f fs =>
          simp only []
          rw [dmerge_dget_of_none _ _ _ (ih _ _ _)]
          exact hres

theorem getMultipleStocks_retry_eq (oracle : ℕ → String → FetchOutcome) (k : ℕ)
    (tr tr₁ : BatchTrace) (symbols : List String) (delay : ℚ)
    (results : List (String × ℕ)) (f : String) (fs : List String)
    (hbatch : batchLoop oracle delay 0 tr [] [] symbols = (results, f :: fs, tr₁)) :
    getMultipleStocks oracle (k + 1) tr symbols delay =
      (dmerge results
        (getMultipleStocks oracle k { tr₁ with sleeps := tr₁.sleeps ++ [5] }
          (f :: fs) (delay * 2)).1,
       (getMultipleStocks oracle k { tr₁ with sleeps := tr₁.sleeps ++ [5] }
          (f :: fs) (delay * 2)).2) := by
  simp only [getMultipleStocks, hbatch]

theorem batchLoop_rate_limit_cooldown (oracle : ℕ → String → FetchOutcome)
    (delay : ℚ) (i : ℕ) (tr tr₁ : BatchTrace) (results : List (String × ℕ))
    (failed : List String) (s : String) (rest : List String)
    (htr₁ : tr₁ = if 0 < i ∧ 0 < delay
      then { tr with sleeps := tr.sleeps ++ [delay] } else tr)
    (hrl : oracle tr₁.calls s = .rateLimitErr) :
    batchLoop oracle delay i tr results failed (s :: rest) =
      batchLoop oracle delay (i + 1)
        { calls := tr₁.calls + 1, sleeps := tr₁.sleeps ++ [60] }
        results (failed ++ [s]) rest := by
  subst htr₁
  simp only [batchLoop, hrl]


/-- C7 counterexample: `get_multiple_stocks` does NOT report the list of
symbols that never succeeded — it returns only the success dict, and the
`failed_symbols` local is dropped at return (only counts are logged).
Witnessed by an information collision: a batch of one never-succeeding
symbol and the empty batch return the very same value, the bare map `[]`,
although their never-succeeded lists (`["7203"]` vs `[]`) differ, so the
result cannot be reporting that list. -/
theorem fetch_many_result_omits_failed_symbol_list :
    (getMultipleStocks (fun _ _ => FetchOutcome.fetchErr) 3 ⟨0, []⟩ ["7203"] 1).1 =
      (getMultipleStocks (fun _ _ => FetchOutcome.fetchErr) 3 ⟨0, []⟩ [] 1).1 ∧
    (getMultipleStocks (fun _ _ => FetchOutcome.fetchErr) 3 ⟨0, []⟩ ["7203"] 1).1 = [] ∧
    dget (getMultipleStocks (fun _ _ => FetchOutcome.fetchErr) 3 ⟨0, []⟩ ["7203"] 1).1
      "7203" = none ∧
    "7203" ∈ (["7203"] : List String) ∧ ("7203" : String) ∉ ([] : List String) := by
  refine ⟨rfl, rfl, rfl, by simp, by simp⟩

/-- C7 amended: `get_multiple_stocks` completes the whole batch even when
individual symbols fail.  Conjunct 1: one pass makes exactly one
`get_stock_info` call per symbol (no abort), and every symbol ends up either
in the success map or in `failed_symbols`.  Conjunct 2: a mid-batch
`APIRateLimitError` appends a fixed 60-second sleep and iteration continues
with the next symbol.  Conjunct 3: with failures left and retries remaining,
the failed subset is retried recursively with `max_retries - 1` and
`delay_between_requests` doubled (after a 5-second pause), and the retry
results are merged into the aggregate map.  Conjunct 4: the result is the
aggregate success map ALONE (the failed list is not returned, see the
counterexample above); that map mentions only input symbols, a symbol whose
every fetch fails is absent from it, and a symbol present in it did succeed
on some call — so the returned map together with the input list determines
exactly the set of symbols that never succeeded. -/
theorem fetch_many_collects_failures_and_retries :
    (∀ (oracle : ℕ → String → FetchOutcome) (delay : ℚ) (symbols : List String)
       (i : ℕ) (tr : BatchTrace),
       (batchLoop oracle delay i tr [] [] symbols).2.2.calls = tr.calls + symbols.length ∧
       ∀ s ∈ symbols,
         dget (batchLoop oracle delay i tr [] [] symbols).1 s ≠ none ∨
         s ∈ (batchLoop oracle delay i tr [] [] symbols).2.1) ∧
    (∀ (oracle : ℕ → String → FetchOutcome) (delay : ℚ) (i : ℕ) (tr tr₁ : BatchTrace)
       (results : List (String × ℕ)) (failed : List String) (s : String)
       (rest : List String),
       tr₁ = (if 0 < i ∧ 0 < delay
         then { tr with sleeps := tr.sleeps ++ [delay] } else tr) →
       oracle tr₁.calls s = .rateLimitErr →
       batchLoop oracle delay i tr results failed (s :: rest) =
         batchLoop oracle delay (i + 1)
           { calls := tr₁.calls + 1, sleeps := tr₁.sleeps ++ [60] }
           results (failed ++ [s]) rest) ∧
    (∀ (oracle : ℕ → String → FetchOutcome) (k : ℕ) (tr tr₁ : BatchTrace)
       (symbols : List String) (delay : ℚ) (results : List (String × ℕ))
       (f : String) (fs : List String),
       batchLoop oracle delay 0 tr [] [] symbols = (results, f :: fs, tr₁) →
       getMultipleStocks oracle (k + 1) tr symbols delay =
         (dmerge results
           (getMultipleStocks oracle k { tr₁ with sleeps := tr₁.sleeps ++ [5] }
             (f :: fs) (delay * 2)).1,
          (getMultipleStocks oracle k { tr₁ with sleeps := tr₁.sleeps ++ [5] }
             (f :: fs) (delay * 2)).2)) ∧
    (∀ (oracle : ℕ → String → FetchOutcome) (k : ℕ) (tr : BatchTrace)
       (symbols : List String) (delay : ℚ) (s : String),
       (dget (getMultipleStocks oracle k tr symbols delay).1 s ≠ none → s ∈ symbols) ∧
       ((∀ (n : ℕ) (v : ℕ), oracle n s ≠ .ok v) →
         dget (getMultipleStocks oracle k tr symbols delay).1 s = none) ∧
       (dget (getMultipleStocks oracle k tr symbols delay).1 s ≠ none →
         ∃ (n : ℕ) (v : ℕ), oracle n s = .ok v)) := by
  refine ⟨?_, ?_, ?_, ?_⟩
  · intro oracle delay symbols i tr
    exact ⟨batchLoop_calls oracle delay symbols i tr [] [],
      fun s hs => batchLoop_covers oracle delay symbols i tr [] [] s hs⟩
  · intro oracle delay i tr tr₁ results failed s rest htr₁ hrl
    exact batchLoop_rate_limit_cooldown oracle delay i tr tr₁ results failed s rest htr₁ hrl
  · intro oracle k tr tr₁ symbols delay results f fs hbatch
    exact getMultipleStocks_retry_eq oracle k tr tr₁ symbols delay results f fs hbatch
  · intro oracle k tr symbols delay s
    refine ⟨fun h => getMultipleStocks_no_junk oracle k tr symbols delay s h,
      fun hfail => getMultipleStocks_never_ok_absent oracle s hfail k tr symbols delay, ?_⟩
    intro h
    by_contra hno
    push_neg at hno
    exact h (getMultipleStocks_never_ok_absent oracle s hno k tr symbols delay)

theorem fetch_many_collects_failures_and_retries_witness :
    ((batchLoop (fun _ _ => FetchOutcome.rateLimitErr) 1 0 ⟨0, []⟩ [] [] ["7203", "9984"]).2.2.calls =
        (⟨0, []⟩ : BatchTrace).calls + (["7203", "9984"] : List String).length ∧
      ∀ s ∈ (["7203", "9984"] : List String),
        dget (batchLoop (fun _ _ => FetchOutcome.rateLimitErr) 1 0 ⟨0, []⟩ [] [] ["7203", "9984"]).1 s ≠ none ∨
        s ∈ (batchLoop (fun _ _ => FetchOutcome.rateLimitErr) 1 0 ⟨0, []⟩ [] [] ["7203", "9984"]).2.1) ∧
    dget (getMultipleStocks (fun _ _ => FetchOutcome.rateLimitErr) 3 ⟨0, []⟩ ["7203"] 1).1 "7203" = none :=
  ⟨fetch_many_collects_failures_and_retries.1 (fun _ _ => FetchOutcome.rateLimitErr)
      1 ["7203", "9984"] 0 ⟨0, []⟩,
   (fetch_many_collects_failures_and_retries.2.2.2 (fun _ _ => FetchOutcome.rateLimitErr)
      3 ⟨0, []⟩ ["7203"] 1 "7203").2.1 (fun n v h => by simp at h)⟩

end JStock
